import Mathlib

/-!
Verification of the archive cursor / image-posting core (src/archive.ts, src/main.ts).

The TypeScript source is shallowly embedded:
  * buffers (`Buffer`) are byte lists (`List Nat`), and `buffer.length` is `List.length`;
  * the external `sharp` image library and the filesystem (`Deno.readDir`,
    `Deno.readTextFileSync`) are oracles supplied as structure fields, so every
    theorem quantifies over their behaviour;
  * JavaScript floating-point arithmetic in the resize loop is modelled with exact
    rationals (the default step 0.04 is the rational 1/25); the integer quality
    counter is an `Int`;
  * the `while (true)` loop of `scaleImageIfNeeded` is embedded with explicit fuel,
    `none` standing for a run that has not finished within the given fuel;
  * thrown exceptions become `Except` errors; `Deno.exit(1)` becomes a fatal outcome.
-/

/-- `ArchiveIndex` from src/archive.ts: a zero-based position in the three-level
archive. The persisted values are non-negative integers, modelled as `Nat`. -/
structure ArchiveIndex where
  series : Nat
  volume : Nat
  page : Nat
deriving DecidableEq, Repr

/-- `SequenceMetadata` from src/archive.ts: the three carry flags derived by the
navigator and consumed by `makeNextIndex`. -/
structure SequenceMetadata where
  isLastPageInVolume : Bool
  isLastVolumeInSeries : Bool
  isLastSeries : Bool
deriving DecidableEq, Repr

/-- `makeNextIndex` from src/archive.ts lines 227-244, embedded branch for branch:
the source copies `currentIndex`, then mutates `page`, `volume`, `series`
according to the nested `if` structure. -/
def makeNextIndex (currentIndex : ArchiveIndex) (sequence : SequenceMetadata) : ArchiveIndex :=
  if sequence.isLastPageInVolume then
    if sequence.isLastVolumeInSeries then
      if sequence.isLastSeries then
        { series := 0, volume := 0, page := 0 }
      else
        { series := currentIndex.series + 1, volume := 0, page := 0 }
    else
      { currentIndex with volume := currentIndex.volume + 1, page := 0 }
  else
    { currentIndex with page := currentIndex.page + 1 }

/-- The four transition rules of spec section 4.4, written in the spec's stated
precedence order (this is the spec-side definition used to check `makeNextIndex`
against the spec; it is intentionally written from the spec's words, not from
the source). -/
def advanceSpec (current : ArchiveIndex) (flags : SequenceMetadata) : ArchiveIndex :=
  if flags.isLastPageInVolume = false then
    { series := current.series, volume := current.volume, page := current.page + 1 }
  else if flags.isLastVolumeInSeries = false then
    { series := current.series, volume := current.volume + 1, page := 0 }
  else if flags.isLastSeries = false then
    { series := current.series + 1, volume := 0, page := 0 }
  else
    { series := 0, volume := 0, page := 0 }

/-- C1: for every current index and every flag combination, `makeNextIndex`
implements the spec's four transition rules in the stated precedence: not last
page gives `{s, v, p+1}`; last page but not last volume gives `{s, v+1, 0}`;
last page and last volume but not last series gives `{s+1, 0, 0}`; all three
flags true gives `{0, 0, 0}` regardless of the input index. -/
theorem makeNextIndex_matches_spec_rules (idx : ArchiveIndex) (flags : SequenceMetadata) :
    makeNextIndex idx flags = advanceSpec idx flags := by
  obtain ⟨s, v, p⟩ := idx
  obtain ⟨b1, b2, b3⟩ := flags
  cases b1 <;> cases b2 <;> cases b3 <;> rfl

/-! ## Size-constrained encoder (src/archive.ts lines 79-118) -/

/-- `MAX_SIZE` from src/archive.ts line 79: the upload byte budget. -/
def MAX_SIZE : Nat := 976 * 1024

/-- The two environment-derived configuration values of src/archive.ts lines
81-85: `JPG_QUALITY` (default 89) and `RESIZE_STEP` (default 0.04). -/
structure EncConfig where
  jpgQualityStart : Int
  resizeStep : ℚ
deriving DecidableEq

/-- The default configuration: quality 89, resize step 0.04 = 1/25. -/
def defaultConfig : EncConfig := { jpgQualityStart := 89, resizeStep := 1 / 25 }

/-- The `while (true)` loop of `scaleImageIfNeeded` (src/archive.ts lines
97-116), embedded with explicit fuel. `enc rw rh q` is the oracle for the
external re-encode `sharp(buffer).resize(rw, rh).jpeg({quality: q}).toBuffer()`
of the fixed source buffer at the floored dimensions and given quality.
`none` means the loop has not produced a result within `fuel` iterations
(the source loop has no iteration counter of its own). -/
def scaleLoop (enc : Nat → Nat → Int → List Nat) (step : ℚ) (w h : Nat) :
    ℚ → Int → Nat → Option (List Nat)
  | _, _, 0 => none
  | resizeFactor, jpgQuality, fuel + 1 =>
    let output := enc (((w : ℚ) * resizeFactor).floor.toNat)
      (((h : ℚ) * resizeFactor).floor.toNat) jpgQuality
    if output.length ≤ MAX_SIZE then some output
    else if resizeFactor > 1 / 5 then
      scaleLoop enc step w h (resizeFactor - step) jpgQuality fuel
    else if jpgQuality > 50 then
      scaleLoop enc step w h resizeFactor (jpgQuality - 4) fuel
    else some output

/-- `scaleImageIfNeeded` from src/archive.ts lines 87-118: return the buffer
unchanged when it fits, otherwise run the degrade loop starting at resize
factor 0.9 and the configured starting quality. -/
def scaleImageIfNeeded (enc : Nat → Nat → Int → List Nat) (cfg : EncConfig)
    (buffer : List Nat) (w h : Nat) (fuel : Nat) : Option (List Nat) :=
  if buffer.length ≤ MAX_SIZE then some buffer
  else scaleLoop enc cfg.resizeStep w h (9 / 10) cfg.jpgQualityStart fuel

/-- C4: for every input buffer whose size is at or under the byte budget
(976*1024 bytes), the size-constrained encoder returns the original bytes
unchanged, byte for byte, independent of the re-encode oracle, the
configuration, the dimensions and the fuel (so no re-encode can have
influenced the result). -/
theorem scaleImageIfNeeded_small_input_unchanged
    (enc : Nat → Nat → Int → List Nat) (cfg : EncConfig) (buffer : List Nat)
    (w h : Nat) (fuel : Nat) (hsmall : buffer.length ≤ MAX_SIZE) :
    scaleImageIfNeeded enc cfg buffer w h fuel = some buffer := by
  simp [scaleImageIfNeeded, hsmall]

/-- C4 witness: a concrete small buffer is returned unchanged. -/
theorem scaleImageIfNeeded_small_input_unchanged_witness :
    ([7, 8, 9] : List Nat).length ≤ MAX_SIZE ∧
      scaleImageIfNeeded (fun _ _ _ => []) defaultConfig [7, 8, 9] 100 100 0 =
        some [7, 8, 9] :=
  ⟨by decide, scaleImageIfNeeded_small_input_unchanged _ _ _ _ _ _ (by decide)⟩

/-- Quality phase bound: once the resize factor is at or below the 0.2 floor,
the loop finishes within `fq + 1` further iterations provided the quality is
at most `50 + 4*fq`, for any oracle, step and dimensions. -/
theorem scaleLoop_quality_phase (enc : Nat → Nat → Int → List Nat) (step : ℚ)
    (w h : Nat) : ∀ (fq : Nat) (r : ℚ) (q : Int), ¬ r > 1 / 5 → q ≤ 50 + 4 * fq →
    scaleLoop enc step w h r q (fq + 1) ≠ none := by
  intro fq
  induction fq with
  | zero =>
    intro r q hr hq
    rw [scaleLoop]
    split
    · simp
    · have hq50 : ¬ q > 50 := by omega
      rw [if_neg hq50]
      simp
  | succ n ih =>
    intro r q hr hq
    rw [scaleLoop]
    split
    · simp
    · by_cases hq50 : q > 50
      · rw [if_pos hq50]
        exact ih r (q - 4) hr (by omega)
      · rw [if_neg hq50]
        simp

/-- Scale phase bound: with the default step 1/25, from a resize factor at most
`1/5 + n/25` the loop finishes within `n + fq + 1` iterations provided the
quality is at most `50 + 4*fq`. -/
theorem scaleLoop_scale_phase (enc : Nat → Nat → Int → List Nat) (w h : Nat) :
    ∀ (n : Nat) (r : ℚ) (q : Int) (fq : Nat), q ≤ 50 + 4 * fq →
    r ≤ 1 / 5 + (1 / 25) * n →
    scaleLoop enc (1 / 25) w h r q (n + (fq + 1)) ≠ none := by
  intro n
  induction n with
  | zero =>
    intro r q fq hq hr
    rw [Nat.zero_add]
    exact scaleLoop_quality_phase enc (1 / 25) w h fq r q (by push_cast at hr; linarith) hq
  | succ m ih =>
    intro r q fq hq hr
    have hfuel : m + 1 + (fq + 1) = (m + (fq + 1)) + 1 := by omega
    rw [hfuel, scaleLoop]
    split
    · simp
    · by_cases hrbig : r > 1 / 5
      · rw [if_pos hrbig]
        refine ih (r - 1 / 25) q fq hq ?_
        push_cast at hr ⊢
        linarith
      · rw [if_neg hrbig]
        by_cases hq50 : q > 50
        · rw [if_pos hq50]
          have : m + (fq + 1) = (m + fq) + 1 := by omega
          rw [this]
          refine scaleLoop_quality_phase enc (1 / 25) w h (m + fq) r (q - 4) hrbig ?_
          push_cast
          omega
        · rw [if_neg hq50]
          simp

/-- C5 (amended): for every oversized input buffer and every behaviour of the
external re-encoder, the degrade loop under the default configuration (start
quality 89, resize step 0.04, scale floor 0.2, quality floor 50) produces a
result within 29 iterations (the initial encode, at most 18 scale steps and at
most 10 quality steps). -/
theorem scaleLoop_defaults_terminate_within_29
    (enc : Nat → Nat → Int → List Nat) (buffer : List Nat) (w h : Nat)
    (hbig : buffer.length > MAX_SIZE) :
    scaleImageIfNeeded enc defaultConfig buffer w h 29 ≠ none := by
  unfold scaleImageIfNeeded
  have hfit : ¬ buffer.length ≤ MAX_SIZE := by omega
  rw [if_neg hfit]
  have h29 : (29 : Nat) = 18 + (10 + 1) := by norm_num
  rw [h29]
  have := scaleLoop_scale_phase enc w h 18 (9 / 10) 89 10 (by norm_num) (by norm_num)
  exact this

/-- C5 witness: a concrete oversized buffer finishes within fuel 29 even with a
re-encoder that never shrinks the image. -/
theorem scaleLoop_defaults_terminate_within_29_witness :
    (List.replicate (MAX_SIZE + 1) 0).length > MAX_SIZE ∧
      scaleImageIfNeeded (fun _ _ _ => List.replicate (MAX_SIZE + 1) 0) defaultConfig
        (List.replicate (MAX_SIZE + 1) 0) 640 480 29 ≠ none :=
  ⟨by simp, scaleLoop_defaults_terminate_within_29 _ _ _ _ (by simp)⟩

/-- A re-encode oracle that always produces an over-budget buffer, no matter the
requested dimensions and quality. -/
def stuckEnc : Nat → Nat → Int → List Nat := fun _ _ _ => List.replicate (MAX_SIZE + 1) 0

/-- With resize step 0 (an overridable configuration value, `RESIZE_STEP`) and a
re-encoder that never fits the budget, the loop makes no progress: no amount of
fuel finishes it, because the resize factor never reaches its floor. -/
theorem scaleLoop_zero_step_stuck :
    ∀ (fuel : Nat) (r : ℚ) (q : Int) (w h : Nat), r > 1 / 5 →
    scaleLoop stuckEnc 0 w h r q fuel = none := by
  intro fuel
  induction fuel with
  | zero => intro r q w h _; rfl
  | succ n ih =>
    intro r q w h hr
    rw [scaleLoop]
    have hbig : ¬ (stuckEnc (((w : ℚ) * r).floor.toNat) (((h : ℚ) * r).floor.toNat) q).length
        ≤ MAX_SIZE := by
      simp [stuckEnc]
    rw [if_neg hbig, if_pos hr, sub_zero]
    exact ih r q w h hr

/-- C5 counterexample: the source imposes no hard iteration ceiling. At the
concrete input consisting of an oversized buffer, configuration
`{quality 89, resize step 0}` and a re-encoder that never fits the budget, the
loop is still unfinished after 1000 iterations, far beyond the roughly 28
iterations the claim says bound the loop. -/
theorem scaleLoop_no_iteration_ceiling :
    scaleImageIfNeeded stuckEnc { jpgQualityStart := 89, resizeStep := 0 }
      (List.replicate (MAX_SIZE + 1) 0) 640 480 1000 = none := by
  unfold scaleImageIfNeeded
  have hbig : ¬ (List.replicate (MAX_SIZE + 1) (0 : Nat)).length ≤ MAX_SIZE := by simp
  rw [if_neg hbig]
  exact scaleLoop_zero_step_stuck 1000 (9 / 10) 89 640 480 (by norm_num)

/-! ## Full traversal of the archive by iterating `makeNextIndex`

An archive shape is a list of series, each series a list of per-volume page
counts: `shape.length` is the series count, `(shape.getD s []).length` the
volume count of series `s`, and `(shape.getD s []).getD v 0` the page count of
volume `v` of series `s`. The flags each step feeds to `makeNextIndex` are
derived from these counts exactly as `loadImageAtIndex` derives them from the
directory listing lengths (src/archive.ts lines 200-202). -/

/-- Per-volume page count of an archive shape. -/
def pageCountOf (shape : List (List Nat)) (s v : Nat) : Nat :=
  (shape.getD s []).getD v 0

/-- The sequencing flags for an index, computed from the counts by the same
formulas as src/archive.ts lines 200-202 (`page === pageCount - 1`, and so on). -/
def flagsFor (shape : List (List Nat)) (idx : ArchiveIndex) : SequenceMetadata :=
  { isLastPageInVolume := decide (idx.page = pageCountOf shape idx.series idx.volume - 1)
    isLastVolumeInSeries := decide (idx.volume = (shape.getD idx.series []).length - 1)
    isLastSeries := decide (idx.series = shape.length - 1) }

/-- One cursor advance: `makeNextIndex` fed with the navigator-derived flags. -/
def stepIndex (shape : List (List Nat)) (idx : ArchiveIndex) : ArchiveIndex :=
  makeNextIndex idx (flagsFor shape idx)

/-- An index is valid when each level is within the corresponding count. -/
def validIndex (shape : List (List Nat)) (idx : ArchiveIndex) : Prop :=
  idx.series < shape.length ∧ idx.volume < (shape.getD idx.series []).length ∧
    idx.page < pageCountOf shape idx.series idx.volume

instance (shape : List (List Nat)) (idx : ArchiveIndex) : Decidable (validIndex shape idx) := by
  unfold validIndex; infer_instance

/-- An archive shape with at least one series, at least one volume per series
and at least one page per volume. -/
def validShape (shape : List (List Nat)) : Prop :=
  shape ≠ [] ∧ ∀ row ∈ shape, row ≠ [] ∧ ∀ c ∈ row, 0 < c

instance (shape : List (List Nat)) : Decidable (validShape shape) := by
  unfold validShape; infer_instance

/-- Total number of pages in the archive. -/
def totalPages (shape : List (List Nat)) : Nat := (shape.map List.sum).sum

/-- Pages in all series strictly before series `s`. -/
def sPre (shape : List (List Nat)) (s : Nat) : Nat := ((shape.map List.sum).take s).sum

/-- Pages in all volumes of series `s` strictly before volume `v`. -/
def vPre (shape : List (List Nat)) (s v : Nat) : Nat := ((shape.getD s []).take v).sum

/-- Position of an index in the traversal order (number of pages before it). -/
def rankOf (shape : List (List Nat)) (idx : ArchiveIndex) : Nat :=
  sPre shape idx.series + vPre shape idx.series idx.volume + idx.page

theorem getD_mem_of_lt {α : Type} (l : List α) (i : Nat) (d : α) (h : i < l.length) :
    l.getD i d ∈ l := by
  induction l generalizing i with
  | nil => simp at h
  | cons a t ih =>
    cases i with
    | zero => simp
    | succ j =>
      simp only [List.length_cons] at h
      right
      exact ih j (by omega)

theorem take_succ_of_lt {α : Type} (l : List α) (i : Nat) (d : α) (h : i < l.length) :
    l.take (i + 1) = l.take i ++ [l.getD i d] := by
  induction l generalizing i with
  | nil => simp at h
  | cons a t ih =>
    cases i with
    | zero => simp
    | succ j =>
      simp only [List.length_cons] at h
      simp only [List.take_succ_cons, List.getD_cons_succ]
      rw [ih j (by omega)]
      simp

theorem sum_take_le (l : List Nat) (i : Nat) : (l.take i).sum ≤ l.sum := by
  induction l generalizing i with
  | nil => simp
  | cons a t ih =>
    cases i with
    | zero => simp
    | succ j =>
      simp only [List.take_succ_cons, List.sum_cons]
      have := ih j
      omega

theorem getD_map_sum (shape : List (List Nat)) (i : Nat) (h : i < shape.length) :
    (shape.map List.sum).getD i 0 = (shape.getD i []).sum := by
  induction shape generalizing i with
  | nil => simp at h
  | cons a t ih =>
    cases i with
    | zero => simp
    | succ j =>
      simp only [List.length_cons] at h
      simp only [List.map_cons, List.getD_cons_succ]
      exact ih j (by omega)

theorem sPre_succ (shape : List (List Nat)) (s : Nat) (h : s < shape.length) :
    sPre shape (s + 1) = sPre shape s + (shape.getD s []).sum := by
  unfold sPre
  rw [take_succ_of_lt (shape.map List.sum) s 0 (by simpa using h), List.sum_append,
    getD_map_sum shape s h]
  simp

theorem vPre_succ (shape : List (List Nat)) (s v : Nat)
    (h : v < (shape.getD s []).length) :
    vPre shape s (v + 1) = vPre shape s v + pageCountOf shape s v := by
  unfold vPre pageCountOf
  rw [take_succ_of_lt (shape.getD s []) v 0 h, List.sum_append]
  simp

theorem sPre_le_total (shape : List (List Nat)) (s : Nat) :
    sPre shape s ≤ totalPages shape :=
  sum_take_le _ _

theorem vPre_le_sum (shape : List (List Nat)) (s v : Nat) :
    vPre shape s v ≤ (shape.getD s []).sum :=
  sum_take_le _ _

theorem rank_lt_total (shape : List (List Nat)) (idx : ArchiveIndex)
    (hv : validIndex shape idx) : rankOf shape idx < totalPages shape := by
  obtain ⟨hs, hvol, hpage⟩ := hv
  have h1 : vPre shape idx.series idx.volume + idx.page <
      (shape.getD idx.series []).sum := by
    have h2 := vPre_succ shape idx.series idx.volume hvol
    have h3 := vPre_le_sum shape idx.series (idx.volume + 1)
    omega
  have h4 := sPre_succ shape idx.series hs
  have h5 := sPre_le_total shape (idx.series + 1)
  unfold rankOf
  omega

theorem stepIndex_case_page (shape : List (List Nat)) (idx : ArchiveIndex)
    (hp : idx.page ≠ pageCountOf shape idx.series idx.volume - 1) :
    stepIndex shape idx = ⟨idx.series, idx.volume, idx.page + 1⟩ := by
  unfold stepIndex makeNextIndex flagsFor
  simp only [decide_eq_true_eq]
  rw [if_neg hp]

theorem stepIndex_case_volume (shape : List (List Nat)) (idx : ArchiveIndex)
    (hp : idx.page = pageCountOf shape idx.series idx.volume - 1)
    (hvne : idx.volume ≠ (shape.getD idx.series []).length - 1) :
    stepIndex shape idx = ⟨idx.series, idx.volume + 1, 0⟩ := by
  unfold stepIndex makeNextIndex flagsFor
  simp only [decide_eq_true_eq]
  rw [if_pos hp, if_neg hvne]

theorem stepIndex_case_series (shape : List (List Nat)) (idx : ArchiveIndex)
    (hp : idx.page = pageCountOf shape idx.series idx.volume - 1)
    (hveq : idx.volume = (shape.getD idx.series []).length - 1)
    (hsne : idx.series ≠ shape.length - 1) :
    stepIndex shape idx = ⟨idx.series + 1, 0, 0⟩ := by
  unfold stepIndex makeNextIndex flagsFor
  simp only [decide_eq_true_eq]
  rw [if_pos hp, if_pos hveq, if_neg hsne]

theorem stepIndex_case_wrap (shape : List (List Nat)) (idx : ArchiveIndex)
    (hp : idx.page = pageCountOf shape idx.series idx.volume - 1)
    (hveq : idx.volume = (shape.getD idx.series []).length - 1)
    (hseq : idx.series = shape.length - 1) :
    stepIndex shape idx = ⟨0, 0, 0⟩ := by
  unfold stepIndex makeNextIndex flagsFor
  simp only [decide_eq_true_eq]
  rw [if_pos hp, if_pos hveq, if_pos hseq]

theorem posCount_of_validShape (shape : List (List Nat)) (hA : validShape shape)
    (s v : Nat) (hs : s < shape.length) (hv : v < (shape.getD s []).length) :
    0 < pageCountOf shape s v := by
  obtain ⟨_, hrows⟩ := hA
  have hrow := hrows (shape.getD s []) (getD_mem_of_lt shape s [] hs)
  exact hrow.2 _ (getD_mem_of_lt (shape.getD s []) v 0 hv)

theorem rowNonempty_of_validShape (shape : List (List Nat)) (hA : validShape shape)
    (s : Nat) (hs : s < shape.length) : 0 < (shape.getD s []).length := by
  obtain ⟨_, hrows⟩ := hA
  have hrow := hrows (shape.getD s []) (getD_mem_of_lt shape s [] hs)
  exact List.length_pos.mpr hrow.1

theorem rowSum_eq (shape : List (List Nat)) (s v : Nat)
    (hveq : v = (shape.getD s []).length - 1)
    (hvlt : v < (shape.getD s []).length) :
    (shape.getD s []).sum = vPre shape s v + pageCountOf shape s v := by
  have hlen : (shape.getD s []).length = v + 1 := by omega
  have := vPre_succ shape s v hvlt
  unfold vPre at this ⊢
  rw [← hlen] at this
  rw [List.take_length] at this
  omega

theorem rank_succ_eq_total_of_last (shape : List (List Nat)) (hA : validShape shape)
    (idx : ArchiveIndex) (hv : validIndex shape idx)
    (hp : idx.page = pageCountOf shape idx.series idx.volume - 1)
    (hv2 : idx.volume = (shape.getD idx.series []).length - 1)
    (hs2 : idx.series = shape.length - 1) :
    rankOf shape idx + 1 = totalPages shape := by
  obtain ⟨hs, hvol, hpage⟩ := hv
  have hlen : shape.length = idx.series + 1 := by omega
  have htot : totalPages shape = sPre shape shape.length := by
    unfold totalPages sPre
    rw [← List.length_map shape List.sum, List.take_length]
  have hrow := rowSum_eq shape idx.series idx.volume hv2 hvol
  have hspre := sPre_succ shape idx.series hs
  have hpc := posCount_of_validShape shape hA idx.series idx.volume hs hvol
  unfold rankOf
  rw [htot, hlen, hspre, hrow]
  omega

theorem step_not_last (shape : List (List Nat)) (hA : validShape shape)
    (idx : ArchiveIndex) (hv : validIndex shape idx)
    (hnot : ¬ (idx.page = pageCountOf shape idx.series idx.volume - 1 ∧
      idx.volume = (shape.getD idx.series []).length - 1 ∧
      idx.series = shape.length - 1)) :
    validIndex shape (stepIndex shape idx) ∧
      rankOf shape (stepIndex shape idx) = rankOf shape idx + 1 := by
  obtain ⟨hs, hvol, hpage⟩ := hv
  by_cases hp : idx.page = pageCountOf shape idx.series idx.volume - 1
  · by_cases hv2 : idx.volume = (shape.getD idx.series []).length - 1
    · have hs2 : idx.series ≠ shape.length - 1 := fun h => hnot ⟨hp, hv2, h⟩
      rw [stepIndex_case_series shape idx hp hv2 hs2]
      have hslt : idx.series + 1 < shape.length := by omega
      have hrow' := rowNonempty_of_validShape shape hA (idx.series + 1) hslt
      have hpc' := posCount_of_validShape shape hA (idx.series + 1) 0 hslt hrow'
      refine ⟨⟨hslt, hrow', hpc'⟩, ?_⟩
      have hrow := rowSum_eq shape idx.series idx.volume hv2 hvol
      have hspre := sPre_succ shape idx.series hs
      have hpc := posCount_of_validShape shape hA idx.series idx.volume hs hvol
      show sPre shape (idx.series + 1) + vPre shape (idx.series + 1) 0 + 0 =
        sPre shape idx.series + vPre shape idx.series idx.volume + idx.page + 1
      have hv0 : vPre shape (idx.series + 1) 0 = 0 := rfl
      omega
    · rw [stepIndex_case_volume shape idx hp hv2]
      have hvlt : idx.volume + 1 < (shape.getD idx.series []).length := by omega
      have hpc' := posCount_of_validShape shape hA idx.series (idx.volume + 1) hs hvlt
      refine ⟨⟨hs, hvlt, hpc'⟩, ?_⟩
      have hvpre := vPre_succ shape idx.series idx.volume hvol
      have hpc := posCount_of_validShape shape hA idx.series idx.volume hs hvol
      show sPre shape idx.series + vPre shape idx.series (idx.volume + 1) + 0 =
        sPre shape idx.series + vPre shape idx.series idx.volume + idx.page + 1
      omega
  · rw [stepIndex_case_page shape idx hp]
    refine ⟨⟨hs, hvol, ?_⟩, ?_⟩
    · show idx.page + 1 < pageCountOf shape idx.series idx.volume
      omega
    · show sPre shape idx.series + vPre shape idx.series idx.volume + (idx.page + 1) =
        sPre shape idx.series + vPre shape idx.series idx.volume + idx.page + 1
      omega

theorem step_advance (shape : List (List Nat)) (hA : validShape shape)
    (idx : ArchiveIndex) (hv : validIndex shape idx)
    (hlt : rankOf shape idx + 1 < totalPages shape) :
    validIndex shape (stepIndex shape idx) ∧
      rankOf shape (stepIndex shape idx) = rankOf shape idx + 1 := by
  refine step_not_last shape hA idx hv fun hall => ?_
  have := rank_succ_eq_total_of_last shape hA idx hv hall.1 hall.2.1 hall.2.2
  omega

theorem step_wrap (shape : List (List Nat)) (hA : validShape shape)
    (idx : ArchiveIndex) (hv : validIndex shape idx)
    (heq : rankOf shape idx + 1 = totalPages shape) :
    stepIndex shape idx = ⟨0, 0, 0⟩ := by
  by_cases hall : idx.page = pageCountOf shape idx.series idx.volume - 1 ∧
      idx.volume = (shape.getD idx.series []).length - 1 ∧
      idx.series = shape.length - 1
  · exact stepIndex_case_wrap shape idx hall.1 hall.2.1 hall.2.2
  · exfalso
    obtain ⟨hval, hrank⟩ := step_not_last shape hA idx hv hall
    have := rank_lt_total shape (stepIndex shape idx) hval
    omega

/-- Find which block of a list of block sizes an offset falls in, returning the
block index and the offset inside it. Inverse of the prefix-sum rank. -/
def locate : List Nat → Nat → Nat × Nat
  | [], n => (0, n)
  | c :: rest, n =>
    if n < c then (0, n)
    else
      let r := locate rest (n - c)
      (r.1 + 1, r.2)

theorem locate_spec : ∀ (rows : List Nat) (i off : Nat), i < rows.length →
    off < rows.getD i 0 → locate rows ((rows.take i).sum + off) = (i, off) := by
  intro rows
  induction rows with
  | nil => intro i off h; simp at h
  | cons c rest ih =>
    intro i off hi hoff
    cases i with
    | zero =>
      simp only [List.take_zero, List.sum_nil, Nat.zero_add]
      rw [locate]
      rw [if_pos (by simpa using hoff)]
    | succ j =>
      simp only [List.length_cons] at hi
      simp only [List.getD_cons_succ] at hoff
      simp only [List.take_succ_cons, List.sum_cons]
      rw [locate]
      have hge : ¬ c + (rest.take j).sum + off < c := by omega
      rw [if_neg hge]
      have harg : c + (rest.take j).sum + off - c = (rest.take j).sum + off := by omega
      rw [harg, ih j off (by omega) hoff]

/-- Recover an index from its traversal rank. -/
def unrank (shape : List (List Nat)) (n : Nat) : ArchiveIndex :=
  let p1 := locate (shape.map List.sum) n
  let p2 := locate (shape.getD p1.1 []) p1.2
  ⟨p1.1, p2.1, p2.2⟩

theorem unrank_rank (shape : List (List Nat)) (idx : ArchiveIndex)
    (hv : validIndex shape idx) : unrank shape (rankOf shape idx) = idx := by
  obtain ⟨hs, hvol, hpage⟩ := hv
  have hoff : vPre shape idx.series idx.volume + idx.page <
      (shape.map List.sum).getD idx.series 0 := by
    rw [getD_map_sum shape idx.series hs]
    have h2 := vPre_succ shape idx.series idx.volume hvol
    have h3 := vPre_le_sum shape idx.series (idx.volume + 1)
    omega
  have h1 : locate (shape.map List.sum)
      (sPre shape idx.series + (vPre shape idx.series idx.volume + idx.page)) =
      (idx.series, vPre shape idx.series idx.volume + idx.page) := by
    have := locate_spec (shape.map List.sum) idx.series
      (vPre shape idx.series idx.volume + idx.page) (by simpa using hs) hoff
    exact this
  have h2 : locate (shape.getD idx.series [])
      (vPre shape idx.series idx.volume + idx.page) = (idx.volume, idx.page) :=
    locate_spec (shape.getD idx.series []) idx.volume idx.page hvol hpage
  unfold unrank
  have harg : rankOf shape idx =
      sPre shape idx.series + (vPre shape idx.series idx.volume + idx.page) := by
    unfold rankOf; omega
  rw [harg, h1]
  simp only [h2]

theorem rank_injective (shape : List (List Nat)) (idx1 idx2 : ArchiveIndex)
    (h1 : validIndex shape idx1) (h2 : validIndex shape idx2)
    (heq : rankOf shape idx1 = rankOf shape idx2) : idx1 = idx2 := by
  have := unrank_rank shape idx1 h1
  have := unrank_rank shape idx2 h2
  rw [← unrank_rank shape idx1 h1, ← unrank_rank shape idx2 h2, heq]

theorem origin_valid (shape : List (List Nat)) (hA : validShape shape) :
    validIndex shape ⟨0, 0, 0⟩ := by
  have hs : 0 < shape.length := List.length_pos.mpr hA.1
  have hrow := rowNonempty_of_validShape shape hA 0 hs
  exact ⟨hs, hrow, posCount_of_validShape shape hA 0 0 hs hrow⟩

theorem rank_origin (shape : List (List Nat)) : rankOf shape ⟨0, 0, 0⟩ = 0 := rfl

theorem trajectory (shape : List (List Nat)) (hA : validShape shape) :
    ∀ n, n < totalPages shape →
      validIndex shape ((stepIndex shape)^[n] ⟨0, 0, 0⟩) ∧
        rankOf shape ((stepIndex shape)^[n] ⟨0, 0, 0⟩) = n := by
  intro n
  induction n with
  | zero =>
    intro _
    exact ⟨origin_valid shape hA, rank_origin shape⟩
  | succ m ih =>
    intro hlt
    obtain ⟨hval, hrank⟩ := ih (by omega)
    rw [Function.iterate_succ_apply']
    obtain ⟨hstep1, hstep2⟩ := step_advance shape hA _ hval (by omega)
    exact ⟨hstep1, by omega⟩

/-- C2: for every archive shape with positive counts at all levels, iterating
`makeNextIndex` from `{0,0,0}`, with the flags at each step derived from the
counts exactly as the navigator derives them, (a) returns to `{0,0,0}` after
exactly `totalPages shape` steps, (b) stays within the valid indices, and
(c) visits every valid index exactly once (each valid index is hit at exactly
one step count below the total). -/
theorem makeNextIndex_traversal_cycle (shape : List (List Nat)) (hA : validShape shape) :
    (stepIndex shape)^[totalPages shape] ⟨0, 0, 0⟩ = ⟨0, 0, 0⟩ ∧
      (∀ n, n < totalPages shape → validIndex shape ((stepIndex shape)^[n] ⟨0, 0, 0⟩)) ∧
      (∀ idx, validIndex shape idx →
        ∃! n, n < totalPages shape ∧ (stepIndex shape)^[n] ⟨0, 0, 0⟩ = idx) := by
  have htotpos : 0 < totalPages shape :=
    Nat.pos_of_ne_zero fun h => by
      have := rank_lt_total shape ⟨0, 0, 0⟩ (origin_valid shape hA)
      omega
  refine ⟨?_, fun n hn => (trajectory shape hA n hn).1, ?_⟩
  · have hm : totalPages shape = (totalPages shape - 1) + 1 := by omega
    rw [hm, Function.iterate_succ_apply']
    obtain ⟨hval, hrank⟩ := trajectory shape hA (totalPages shape - 1) (by omega)
    exact step_wrap shape hA _ hval (by omega)
  · intro idx hidx
    refine ⟨rankOf shape idx, ⟨rank_lt_total shape idx hidx, ?_⟩, ?_⟩
    · obtain ⟨hval, hrank⟩ := trajectory shape hA (rankOf shape idx)
        (rank_lt_total shape idx hidx)
      exact rank_injective shape _ idx hval hidx hrank
    · intro m ⟨hm, hmeq⟩
      obtain ⟨hval, hrank⟩ := trajectory shape hA m hm
      rw [hmeq] at hrank
      omega

/-- C2 witness: the concrete archive shape with two series, per-volume page
counts `[2, 1]` in the first series and `[3]` in the second, has six pages;
the traversal wraps after six steps and visits each valid index exactly once. -/
theorem makeNextIndex_traversal_cycle_witness :
    validShape [[2, 1], [3]] ∧
      ((stepIndex [[2, 1], [3]])^[totalPages [[2, 1], [3]]] ⟨0, 0, 0⟩ = ⟨0, 0, 0⟩ ∧
        (∀ n, n < totalPages [[2, 1], [3]] →
          validIndex [[2, 1], [3]] ((stepIndex [[2, 1], [3]])^[n] ⟨0, 0, 0⟩)) ∧
        (∀ idx, validIndex [[2, 1], [3]] idx →
          ∃! n, n < totalPages [[2, 1], [3]] ∧
            (stepIndex [[2, 1], [3]])^[n] ⟨0, 0, 0⟩ = idx)) :=
  ⟨by decide, makeNextIndex_traversal_cycle [[2, 1], [3]] (by decide)⟩

/-! ## Archive navigator (src/archive.ts lines 120-225)

The filesystem is an oracle mapping a path to its directory entries (`none`
models a `Deno.readDir` failure). The external `sharp` library is an oracle
giving, per file path, the metadata width/height (`none` models an undefined
field), the decoded buffer, and the re-encode results used by the degrade
loop. `localeCompare`-based sorting is modelled as a stable insertion sort by
the string order. -/

/-- One `Deno.readDir` entry: its name and kind flags. -/
structure DirEntry where
  name : String
  isDirectory : Bool
  isFile : Bool
deriving DecidableEq

/-- Filesystem oracle: directory entries per path; `none` is a read failure. -/
structure FS where
  entriesAt : String → Option (List DirEntry)

/-- The errors thrown by the navigator, carrying the data interpolated into the
source's `Error` messages. -/
inductive ArchiveError where
  | dirRead (path : String)
  | seriesOOB (series : Nat)
  | volumeOOB (volume : Nat) (series : Nat)
  | pageOOB (page : Nat) (volume : Nat) (count : Nat)
  | decodeFailed
deriving DecidableEq

/-- `ARCHIVE_ROOT` from src/archive.ts line 172. -/
def ARCHIVE_ROOT : String := "images"

/-- `SERIES_NAMES` from src/archive.ts lines 174-179: the static catalog. -/
def SERIES_NAMES : List String :=
  ["The Original Bondage Fairies", "Bondage Fairies Extreme",
    "Bondage Fairies Fairie Fetish", "New Bondage Fairies"]

/-- Lexicographic comparison of character lists by code point. -/
def charListLe : List Char → List Char → Bool
  | [], _ => true
  | _ :: _, [] => false
  | c1 :: t1, c2 :: t2 =>
    if c1.val < c2.val then true
    else if c2.val < c1.val then false
    else charListLe t1 t2

/-- The `localeCompare` comparator, modelled as code-point-wise lexicographic
string comparison. -/
def strLe (a b : String) : Bool := charListLe a.data b.data

/-- Insert into a sorted list, keeping earlier-or-equal elements first. -/
def insertSorted (x : String) : List String → List String
  | [] => [x]
  | y :: ys => if strLe x y then x :: y :: ys else y :: insertSorted x ys

/-- `Array.prototype.sort` with the `localeCompare` comparator, modelled as a
stable insertion sort by the string order. -/
def sortStrings (l : List String) : List String := l.foldr insertSorted []

/-- `loadSeriesPaths` from src/archive.ts lines 120-134: directory names under
the archive root, sorted. -/
def loadSeriesPaths (fs : FS) : Except ArchiveError (List String) :=
  match fs.entriesAt ARCHIVE_ROOT with
  | none => .error (.dirRead ARCHIVE_ROOT)
  | some es => .ok (sortStrings ((es.filter (fun e => e.isDirectory)).map (fun e => e.name)))

/-- `loadVolumePaths` from src/archive.ts lines 136-152: full volume paths
under the given series directory name, sorted. -/
def loadVolumePaths (fs : FS) (seriesPathSegment : String) : Except ArchiveError (List String) :=
  match fs.entriesAt (ARCHIVE_ROOT ++ "/" ++ seriesPathSegment) with
  | none => .error (.dirRead (ARCHIVE_ROOT ++ "/" ++ seriesPathSegment))
  | some es =>
    .ok (sortStrings ((es.filter (fun e => e.isDirectory)).map
      (fun e => ARCHIVE_ROOT ++ "/" ++ seriesPathSegment ++ "/" ++ e.name)))

/-- `loadImagePaths` from src/archive.ts lines 154-169: file names under the
given volume path, sorted. -/
def loadImagePaths (fs : FS) (volumePath : String) : Except ArchiveError (List String) :=
  match fs.entriesAt volumePath with
  | none => .error (.dirRead volumePath)
  | some es => .ok (sortStrings ((es.filter (fun e => e.isFile)).map (fun e => e.name)))

/-- The `sharp` oracle: per file path, the metadata width and height (`none`
models an undefined field), the decoded buffer (`toBuffer`), and the re-encode
output for given resize dimensions and quality. -/
structure Sharp where
  metaW : String → Option Nat
  metaH : String → Option Nat
  bytes : String → List Nat
  encode : String → Nat → Nat → Int → List Nat

/-- `LoadedImage` from src/archive.ts: the (possibly rescaled) buffer and the
aspect ratio record (named `aspectRatio` in the source; `aspect` here), as a
width-height pair. -/
structure LoadedImage where
  buffer : List Nat
  aspect : Nat × Nat
deriving DecidableEq

/-- `PostMetadata` from src/archive.ts. `seriesName` is an `Option` because the
source reads `SERIES_NAMES[index.series]`, which is `undefined` past the end of
the catalog. -/
structure PostMetadata where
  seriesName : Option String
  volumeNumber : Nat
  pageNumber : Nat
deriving DecidableEq

/-- `LoadedLabeledImage` from src/archive.ts. -/
structure LoadedLabeledImage where
  buffer : List Nat
  aspect : Nat × Nat
  meta : PostMetadata
  sequence : SequenceMetadata
deriving DecidableEq

/-- `getImageDataAndAspect` from src/archive.ts lines 67-77: read metadata,
fail when width or height is falsy (undefined or zero), then scale the decoded
buffer to fit the budget. The aspect pair is taken from the original metadata.
The outer `Option` propagates loop fuel exhaustion. -/
def getImageDataAndAspect (s : Sharp) (cfg : EncConfig) (fuel : Nat) (filePath : String) :
    Option (Except ArchiveError LoadedImage) :=
  match s.metaW filePath, s.metaH filePath with
  | some w, some h =>
    if w = 0 ∨ h = 0 then some (.error .decodeFailed)
    else
      match scaleImageIfNeeded (s.encode filePath) cfg (s.bytes filePath) w h fuel with
      | none => none
      | some scaled => some (.ok { buffer := scaled, aspect := (w, h) })
  | _, _ => some (.error .decodeFailed)

/-- `loadImageAtIndex` from src/archive.ts lines 181-225: resolve the index
through the three listing levels with bounds checks in order series, volume,
page; compute the flags from the listing lengths; load and scale the image;
label it with the catalog name and 1-based volume/page numbers. -/
def loadImageAtIndex (fs : FS) (s : Sharp) (cfg : EncConfig) (fuel : Nat)
    (index : ArchiveIndex) : Option (Except ArchiveError LoadedLabeledImage) :=
  match loadSeriesPaths fs with
  | .error e => some (.error e)
  | .ok seriesPaths =>
    if seriesPaths.length ≤ index.series then some (.error (.seriesOOB index.series))
    else
      match loadVolumePaths fs (seriesPaths.getD index.series "") with
      | .error e => some (.error e)
      | .ok volumePaths =>
        if volumePaths.length ≤ index.volume then
          some (.error (.volumeOOB index.volume index.series))
        else
          match loadImagePaths fs (volumePaths.getD index.volume "") with
          | .error e => some (.error e)
          | .ok imagePaths =>
            if imagePaths.length ≤ index.page then
              some (.error (.pageOOB index.page index.volume imagePaths.length))
            else
              match getImageDataAndAspect s cfg fuel
                  (volumePaths.getD index.volume "" ++ "/" ++ imagePaths.getD index.page "") with
              | none => none
              | some (.error e) => some (.error e)
              | some (.ok li) =>
                some (.ok {
                  buffer := li.buffer
                  aspect := li.aspect
                  meta := {
                    seriesName := SERIES_NAMES.get? index.series
                    volumeNumber := index.volume + 1
                    pageNumber := index.page + 1 }
                  sequence := {
                    isLastPageInVolume := decide (index.page = imagePaths.length - 1)
                    isLastVolumeInSeries := decide (index.volume = volumePaths.length - 1)
                    isLastSeries := decide (index.series = seriesPaths.length - 1) } })

theorem loadImageAtIndex_eq (fs : FS) (s : Sharp) (cfg : EncConfig) (fuel : Nat)
    (index : ArchiveIndex) (ls vs ps : List String) (path : String) (w h : Nat)
    (scaled : List Nat)
    (hls : loadSeriesPaths fs = .ok ls) (hs : index.series < ls.length)
    (hvs : loadVolumePaths fs (ls.getD index.series "") = .ok vs)
    (hv : index.volume < vs.length)
    (hps : loadImagePaths fs (vs.getD index.volume "") = .ok ps)
    (hp : index.page < ps.length)
    (hpath : path = vs.getD index.volume "" ++ "/" ++ ps.getD index.page "")
    (hw : s.metaW path = some w) (hh : s.metaH path = some h)
    (hw0 : w ≠ 0) (hh0 : h ≠ 0)
    (hsc : scaleImageIfNeeded (s.encode path) cfg (s.bytes path) w h fuel = some scaled) :
    loadImageAtIndex fs s cfg fuel index = some (.ok {
      buffer := scaled
      aspect := (w, h)
      meta := {
        seriesName := SERIES_NAMES.get? index.series
        volumeNumber := index.volume + 1
        pageNumber := index.page + 1 }
      sequence := {
        isLastPageInVolume := decide (index.page = ps.length - 1)
        isLastVolumeInSeries := decide (index.volume = vs.length - 1)
        isLastSeries := decide (index.series = ls.length - 1) } }) := by
  have hs' : ¬ ls.length ≤ index.series := by omega
  have hv' : ¬ vs.length ≤ index.volume := by omega
  have hp' : ¬ ps.length ≤ index.page := by omega
  have hwh : ¬ (w = 0 ∨ h = 0) := by
    rintro (h0 | h0)
    · exact hw0 h0
    · exact hh0 h0
  simp only [loadImageAtIndex, hls, hvs, hps]
  rw [if_neg hs', if_neg hv', if_neg hp', ← hpath]
  simp only [getImageDataAndAspect, hw, hh]
  rw [if_neg hwh]
  simp only [hsc]

theorem getImageDataAndAspect_ok_inv (s : Sharp) (cfg : EncConfig) (fuel : Nat)
    (filePath : String) (li : LoadedImage)
    (hok : getImageDataAndAspect s cfg fuel filePath = some (.ok li)) :
    ∃ w h scaled, s.metaW filePath = some w ∧ s.metaH filePath = some h ∧
      w ≠ 0 ∧ h ≠ 0 ∧
      scaleImageIfNeeded (s.encode filePath) cfg (s.bytes filePath) w h fuel = some scaled ∧
      li = { buffer := scaled, aspect := (w, h) } := by
  unfold getImageDataAndAspect at hok
  split at hok
  · rename_i w h hw hh
    split at hok
    · simp at hok
    · rename_i hwh
      split at hok
      · simp at hok
      · rename_i scaled hsc
        refine ⟨w, h, scaled, hw, hh, ?_, ?_, hsc, ?_⟩
        · intro h0; exact hwh (Or.inl h0)
        · intro h0; exact hwh (Or.inr h0)
        · injection hok with hok2
          injection hok2 with hok3
          exact hok3.symm
  · simp at hok

theorem loadImageAtIndex_ok_inv (fs : FS) (s : Sharp) (cfg : EncConfig) (fuel : Nat)
    (index : ArchiveIndex) (r : LoadedLabeledImage)
    (hok : loadImageAtIndex fs s cfg fuel index = some (.ok r)) :
    ∃ ls vs ps li,
      loadSeriesPaths fs = .ok ls ∧ index.series < ls.length ∧
      loadVolumePaths fs (ls.getD index.series "") = .ok vs ∧ index.volume < vs.length ∧
      loadImagePaths fs (vs.getD index.volume "") = .ok ps ∧ index.page < ps.length ∧
      getImageDataAndAspect s cfg fuel
        (vs.getD index.volume "" ++ "/" ++ ps.getD index.page "") = some (.ok li) ∧
      r = {
        buffer := li.buffer
        aspect := li.aspect
        meta := {
          seriesName := SERIES_NAMES.get? index.series
          volumeNumber := index.volume + 1
          pageNumber := index.page + 1 }
        sequence := {
          isLastPageInVolume := decide (index.page = ps.length - 1)
          isLastVolumeInSeries := decide (index.volume = vs.length - 1)
          isLastSeries := decide (index.series = ls.length - 1) } } := by
  unfold loadImageAtIndex at hok
  split at hok
  · simp at hok
  · rename_i ls hls
    split at hok
    · simp at hok
    · rename_i hs
      split at hok
      · simp at hok
      · rename_i vs hvs
        split at hok
        · simp at hok
        · rename_i hv
          split at hok
          · simp at hok
          · rename_i ps hps
            split at hok
            · simp at hok
            · rename_i hp
              split at hok
              · simp at hok
              · simp at hok
              · rename_i li hli
                refine ⟨ls, vs, ps, li, hls, by omega, hvs, by omega, hps, by omega,
                  hli, ?_⟩
                injection hok with hok2
                injection hok2 with hok3
                exact hok3.symm

/-- C6: for every index within bounds of the live listings (and a loadable
image there), the flags returned by `loadImageAtIndex` are consistent with the
directory counts: `isLastPageInVolume` holds exactly when the page is
`pageCount - 1`, `isLastVolumeInSeries` exactly when the volume is
`volumeCount - 1`, and `isLastSeries` exactly when the series is
`seriesCount - 1`. -/
theorem loadImageAtIndex_flags_consistent (fs : FS) (s : Sharp) (cfg : EncConfig)
    (fuel : Nat) (index : ArchiveIndex) (ls vs ps : List String) (path : String)
    (w h : Nat) (scaled : List Nat)
    (hls : loadSeriesPaths fs = .ok ls) (hs : index.series < ls.length)
    (hvs : loadVolumePaths fs (ls.getD index.series "") = .ok vs)
    (hv : index.volume < vs.length)
    (hps : loadImagePaths fs (vs.getD index.volume "") = .ok ps)
    (hp : index.page < ps.length)
    (hpath : path = vs.getD index.volume "" ++ "/" ++ ps.getD index.page "")
    (hw : s.metaW path = some w) (hh : s.metaH path = some h)
    (hw0 : w ≠ 0) (hh0 : h ≠ 0)
    (hsc : scaleImageIfNeeded (s.encode path) cfg (s.bytes path) w h fuel = some scaled) :
    ∃ r, loadImageAtIndex fs s cfg fuel index = some (.ok r) ∧
      (r.sequence.isLastPageInVolume = true ↔ index.page = ps.length - 1) ∧
      (r.sequence.isLastVolumeInSeries = true ↔ index.volume = vs.length - 1) ∧
      (r.sequence.isLastSeries = true ↔ index.series = ls.length - 1) := by
  refine ⟨_, loadImageAtIndex_eq fs s cfg fuel index ls vs ps path w h scaled
    hls hs hvs hv hps hp hpath hw hh hw0 hh0 hsc, ?_, ?_, ?_⟩ <;> simp

/-- A one-series, one-volume, two-page concrete filesystem. -/
def fsTwoPages : FS := ⟨fun p =>
  if p = "images" then some [⟨"s1", true, false⟩]
  else if p = "images/s1" then some [⟨"v1", true, false⟩]
  else if p = "images/s1/v1" then some [⟨"p1", false, true⟩, ⟨"p2", false, true⟩]
  else none⟩

/-- A concrete `sharp` oracle: every file decodes as 640x480 with a tiny
3-byte buffer, so no rescale kicks in. -/
def sharpSmall : Sharp :=
  ⟨fun _ => some 640, fun _ => some 480, fun _ => [1, 2, 3], fun _ _ _ _ => []⟩

/-- C6 witness: at index `{0,0,0}` of the two-page archive, the flags are
`{false, true, true}`, matching the counts 2, 1, 1. -/
theorem loadImageAtIndex_flags_consistent_witness :
    ∃ r, loadImageAtIndex fsTwoPages sharpSmall defaultConfig 1 ⟨0, 0, 0⟩ = some (.ok r) ∧
      (r.sequence.isLastPageInVolume = true ↔ (0 : Nat) = 1) ∧
      (r.sequence.isLastVolumeInSeries = true ↔ (0 : Nat) = 0) ∧
      (r.sequence.isLastSeries = true ↔ (0 : Nat) = 0) :=
  loadImageAtIndex_flags_consistent fsTwoPages sharpSmall defaultConfig 1 ⟨0, 0, 0⟩
    ["s1"] ["images/s1/v1"] ["p1", "p2"] "images/s1/v1/p1" 640 480 [1, 2, 3]
    rfl (by decide) rfl (by decide) rfl (by decide) rfl rfl rfl
    (by decide) (by decide) rfl

/-- C9: for every successful load, the aspect pair returned by
`loadImageAtIndex` is the width and height of the original decoded metadata of
the loaded file — the very file whose (possibly rescaled and re-encoded)
buffer is returned — and is never recomputed from the re-encoded output. -/
theorem loadImageAtIndex_aspect_from_original (fs : FS) (s : Sharp) (cfg : EncConfig)
    (fuel : Nat) (index : ArchiveIndex) (r : LoadedLabeledImage)
    (hok : loadImageAtIndex fs s cfg fuel index = some (.ok r)) :
    ∃ filePath w h scaled,
      s.metaW filePath = some w ∧ s.metaH filePath = some h ∧
      scaleImageIfNeeded (s.encode filePath) cfg (s.bytes filePath) w h fuel = some scaled ∧
      r.buffer = scaled ∧ r.aspect = (w, h) := by
  obtain ⟨ls, vs, ps, li, hls, hs, hvs, hv, hps, hp, hli, hr⟩ :=
    loadImageAtIndex_ok_inv fs s cfg fuel index r hok
  obtain ⟨w, h, scaled, hw, hh, hw0, hh0, hsc, hli2⟩ :=
    getImageDataAndAspect_ok_inv s cfg fuel _ li hli
  refine ⟨_, w, h, scaled, hw, hh, hsc, ?_, ?_⟩
  · rw [hr, hli2]
  · rw [hr, hli2]

/-- The result record of loading index `{0,0,0}` of the two-page archive. -/
def loadedTwoPages : LoadedLabeledImage :=
  { buffer := [1, 2, 3]
    aspect := (640, 480)
    meta := { seriesName := some "The Original Bondage Fairies"
              volumeNumber := 1, pageNumber := 1 }
    sequence := { isLastPageInVolume := false, isLastVolumeInSeries := true
                  isLastSeries := true } }

/-- C9 witness: the concrete successful load reports the original 640x480
dimensions. -/
theorem loadImageAtIndex_aspect_from_original_witness :
    ∃ filePath w h scaled,
      sharpSmall.metaW filePath = some w ∧ sharpSmall.metaH filePath = some h ∧
      scaleImageIfNeeded (sharpSmall.encode filePath) defaultConfig
        (sharpSmall.bytes filePath) w h 1 = some scaled ∧
      loadedTwoPages.buffer = scaled ∧ loadedTwoPages.aspect = (w, h) :=
  loadImageAtIndex_aspect_from_original fsTwoPages sharpSmall defaultConfig 1
    ⟨0, 0, 0⟩ loadedTwoPages rfl

/-- C10: `loadImageAtIndex` never checks `index.series` against the static
catalog `SERIES_NAMES` (length 4): for any index valid against the on-disk
listings but at or past the catalog length, resolution succeeds and the
returned metadata's series name is the absent value (`undefined` in the
source), not a failure. -/
theorem loadImageAtIndex_no_catalog_bounds_check (fs : FS) (s : Sharp)
    (cfg : EncConfig) (fuel : Nat) (index : ArchiveIndex) (ls vs ps : List String)
    (path : String) (w h : Nat) (scaled : List Nat)
    (hls : loadSeriesPaths fs = .ok ls) (hs : index.series < ls.length)
    (hvs : loadVolumePaths fs (ls.getD index.series "") = .ok vs)
    (hv : index.volume < vs.length)
    (hps : loadImagePaths fs (vs.getD index.volume "") = .ok ps)
    (hp : index.page < ps.length)
    (hpath : path = vs.getD index.volume "" ++ "/" ++ ps.getD index.page "")
    (hw : s.metaW path = some w) (hh : s.metaH path = some h)
    (hw0 : w ≠ 0) (hh0 : h ≠ 0)
    (hsc : scaleImageIfNeeded (s.encode path) cfg (s.bytes path) w h fuel = some scaled)
    (hcat : SERIES_NAMES.length ≤ index.series) :
    ∃ r, loadImageAtIndex fs s cfg fuel index = some (.ok r) ∧
      r.meta.seriesName = none := by
  refine ⟨_, loadImageAtIndex_eq fs s cfg fuel index ls vs ps path w h scaled
    hls hs hvs hv hps hp hpath hw hh hw0 hh0 hsc, ?_⟩
  show SERIES_NAMES.get? index.series = none
  exact List.get?_eq_none.mpr hcat

/-- A five-series concrete filesystem: one more series on disk than the
four-entry static catalog. -/
def fsFiveSeries : FS := ⟨fun p =>
  if p = "images" then some [⟨"s1", true, false⟩, ⟨"s2", true, false⟩,
    ⟨"s3", true, false⟩, ⟨"s4", true, false⟩, ⟨"s5", true, false⟩]
  else if p = "images/s5" then some [⟨"v1", true, false⟩]
  else if p = "images/s5/v1" then some [⟨"p1", false, true⟩]
  else none⟩

/-- C10 witness: the fifth on-disk series (index 4, one past the catalog)
resolves successfully with an absent series name. -/
theorem loadImageAtIndex_no_catalog_bounds_check_witness :
    SERIES_NAMES.length ≤ 4 ∧
      ∃ r, loadImageAtIndex fsFiveSeries sharpSmall defaultConfig 1 ⟨4, 0, 0⟩ =
        some (.ok r) ∧ r.meta.seriesName = none :=
  ⟨by decide, loadImageAtIndex_no_catalog_bounds_check fsFiveSeries sharpSmall
    defaultConfig 1 ⟨4, 0, 0⟩ ["s1", "s2", "s3", "s4", "s5"] ["images/s5/v1"] ["p1"]
    "images/s5/v1/p1" 640 480 [1, 2, 3]
    rfl (by decide) rfl (by decide) rfl (by decide) rfl rfl rfl
    (by decide) (by decide) rfl (by decide)⟩

/-! ## Cursor store (src/archive.ts lines 11-32) -/

/-- A JSON value, the possible result of `JSON.parse`. -/
inductive Json where
  | null
  | jbool (b : Bool)
  | jnum (n : Int)
  | jstr (s : String)
  | jarr (elems : List Json)
  | jobj (fields : List (String × Json))

/-- `loadArchiveIndex` from src/archive.ts lines 13-22. `readResult` is the
combined outcome of `Deno.readTextFileSync` plus `JSON.parse`: `none` when
either throws (file missing, unreadable, or not valid JSON), in which case the
catch block logs and calls `Deno.exit(1)` (modelled as `.error ()`). Otherwise
the parsed value is returned through the type assertion `as ArchiveIndex`,
which performs no runtime validation at all. -/
def loadArchiveIndex (readResult : Option Json) : Except Unit Json :=
  match readResult with
  | none => .error ()
  | some j => .ok j

/-- Modelled from the spec: "the expected structure" of the cursor record — an
object with exactly the three non-negative integer fields `series`, `volume`,
`page` (spec sections 3 and 4.5). This validation is missing from the code;
the definition exists only to state what the code fails to check. -/
def isArchiveIndexShape : Json → Bool
  | .jobj [("series", .jnum s), ("volume", .jnum v), ("page", .jnum p)] =>
    decide (0 ≤ s) && decide (0 ≤ v) && decide (0 ≤ p)
  | _ => false

/-- C8 counterexample: a cursor file containing `{}` — valid JSON that is not
the expected `ArchiveIndex` structure — does not make the load fail: the
parsed empty object is returned as the index, unvalidated. -/
theorem loadArchiveIndex_accepts_malformed_shape :
    isArchiveIndexShape (.jobj []) = false ∧
      loadArchiveIndex (some (.jobj [])) = .ok (.jobj []) :=
  ⟨rfl, rfl⟩

/-- C8 (amended): the load fails fatally exactly when reading or JSON-parsing
the cursor file fails (missing, unreadable, or invalid JSON); any successfully
parsed JSON value — whether or not it has the expected `ArchiveIndex` shape —
is returned as-is, and no default or fallback index is ever substituted. -/
theorem loadArchiveIndex_fatal_iff_read_or_parse_failure (readResult : Option Json) :
    (loadArchiveIndex readResult = .error () ↔ readResult = none) ∧
      (∀ j, readResult = some j → loadArchiveIndex readResult = .ok j) := by
  constructor
  · cases readResult <;> simp [loadArchiveIndex]
  · intro j hj
    rw [hj]
    rfl

/-- C8 witness: a concrete parsed value is passed through unchanged. -/
theorem loadArchiveIndex_fatal_iff_read_or_parse_failure_witness :
    loadArchiveIndex (some (.jnum 3)) = .ok (.jnum 3) :=
  (loadArchiveIndex_fatal_iff_read_or_parse_failure (some (.jnum 3))).2 (.jnum 3) rfl

/-! ## The run (src/main.ts lines 18-50)

`main` logs in, loads the cursor, loads the image at the cursor, posts it to
the external service, and only then computes and saves the next index. Every
thrown error aborts the run before the save. The model bundles the external
collaborators into a `World`; the second component of `runMain` is the
persisted cursor record when the process ends: the prior record when no save
ran, the newly saved next index otherwise (`saveArchiveIndex` overwrites the
file wholesale). -/

/-- The externally determined facts a single run of `main` observes. `cursor`
is the loaded cursor record (`none` models a failed `loadArchiveIndex`, which
exits the process); `postOk` is whether `bot.post` resolves. -/
structure World where
  loginOk : Bool
  cursor : Option ArchiveIndex
  fs : FS
  sharp : Sharp
  cfg : EncConfig
  fuel : Nat
  postOk : Bool

/-- How a run ends: aborted by an error or exit, completed a post-and-save,
or fuel ran out inside the encode loop (no source counterpart: the loop spun
without finishing). -/
inductive RunOutcome where
  | fatal
  | posted
  | diverged
deriving DecidableEq

/-- `main` from src/main.ts lines 18-47: the outcome together with the
persisted cursor record at process end. -/
def runMain (w : World) : RunOutcome × Option ArchiveIndex :=
  if w.loginOk = false then (.fatal, w.cursor)
  else
    match w.cursor with
    | none => (.fatal, w.cursor)
    | some cur =>
      match loadImageAtIndex w.fs w.sharp w.cfg w.fuel cur with
      | none => (.diverged, w.cursor)
      | some (.error _) => (.fatal, w.cursor)
      | some (.ok r) =>
        if w.postOk then (.posted, some (makeNextIndex cur r.sequence))
        else (.fatal, w.cursor)

/-- C3: if the hand-off to the external posting collaborator fails, the cursor
is not advanced and not saved: the persisted record is left unchanged and the
run does not complete a post, because `makeNextIndex` and `saveArchiveIndex`
run only after `bot.post` returns successfully. -/
theorem main_post_failure_preserves_cursor (w : World) (hpost : w.postOk = false) :
    (runMain w).2 = w.cursor ∧ (runMain w).1 ≠ .posted := by
  constructor
  · unfold runMain
    split
    · rfl
    · split
      · rfl
      · split
        · rfl
        · rfl
        · rw [hpost]
          simp
  · unfold runMain
    split
    · simp
    · split
      · simp
      · split
        · simp
        · simp
        · rw [hpost]
          simp

/-- The concrete world of the C3 witness: everything succeeds except the post. -/
def worldPostFail : World :=
  { loginOk := true, cursor := some ⟨0, 0, 0⟩, fs := fsTwoPages, sharp := sharpSmall
    cfg := defaultConfig, fuel := 1, postOk := false }

/-- C3 witness: with a failing post, the persisted record stays `{0,0,0}`. -/
theorem main_post_failure_preserves_cursor_witness :
    (runMain worldPostFail).2 = some ⟨0, 0, 0⟩ ∧ (runMain worldPostFail).1 ≠ .posted :=
  main_post_failure_preserves_cursor worldPostFail rfl

theorem loadImageAtIndex_series_oob_eq (fs : FS) (s : Sharp) (cfg : EncConfig)
    (fuel : Nat) (index : ArchiveIndex) (ls : List String)
    (hls : loadSeriesPaths fs = .ok ls) (hoob : ls.length ≤ index.series) :
    loadImageAtIndex fs s cfg fuel index = some (.error (.seriesOOB index.series)) := by
  simp only [loadImageAtIndex, hls]
  rw [if_pos hoob]

theorem loadImageAtIndex_volume_oob_eq (fs : FS) (s : Sharp) (cfg : EncConfig)
    (fuel : Nat) (index : ArchiveIndex) (ls vs : List String)
    (hls : loadSeriesPaths fs = .ok ls) (hs : index.series < ls.length)
    (hvs : loadVolumePaths fs (ls.getD index.series "") = .ok vs)
    (hoob : vs.length ≤ index.volume) :
    loadImageAtIndex fs s cfg fuel index =
      some (.error (.volumeOOB index.volume index.series)) := by
  have hs' : ¬ ls.length ≤ index.series := by omega
  simp only [loadImageAtIndex, hls, hvs]
  rw [if_neg hs', if_pos hoob]

theorem loadImageAtIndex_page_oob_eq (fs : FS) (s : Sharp) (cfg : EncConfig)
    (fuel : Nat) (index : ArchiveIndex) (ls vs ps : List String)
    (hls : loadSeriesPaths fs = .ok ls) (hs : index.series < ls.length)
    (hvs : loadVolumePaths fs (ls.getD index.series "") = .ok vs)
    (hv : index.volume < vs.length)
    (hps : loadImagePaths fs (vs.getD index.volume "") = .ok ps)
    (hoob : ps.length ≤ index.page) :
    loadImageAtIndex fs s cfg fuel index =
      some (.error (.pageOOB index.page index.volume ps.length)) := by
  have hs' : ¬ ls.length ≤ index.series := by omega
  have hv' : ¬ vs.length ≤ index.volume := by omega
  simp only [loadImageAtIndex, hls, hvs, hps]
  rw [if_neg hs', if_neg hv', if_pos hoob]

theorem runMain_cursor_unchanged_of_load_error (w : World) (cur : ArchiveIndex)
    (hcur : w.cursor = some cur) (e : ArchiveError)
    (hload : loadImageAtIndex w.fs w.sharp w.cfg w.fuel cur = some (.error e)) :
    (runMain w).2 = w.cursor := by
  unfold runMain
  split
  · rfl
  · split
    · rfl
    · rename_i cur2 hc2
      rw [hcur] at hc2
      injection hc2 with h2
      subst h2
      rw [hload]

/-- C7: the navigator checks bounds in order series, volume, page: an index at
or past the count at a level fails with the out-of-bounds error naming that
level (and the data interpolated into the source message), and in every such
run the persisted cursor record is left unchanged. -/
theorem loadImageAtIndex_oob_errors (w : World) (cur : ArchiveIndex)
    (hcur : w.cursor = some cur) (ls : List String)
    (hls : loadSeriesPaths w.fs = .ok ls) :
    (ls.length ≤ cur.series →
      loadImageAtIndex w.fs w.sharp w.cfg w.fuel cur =
        some (.error (.seriesOOB cur.series)) ∧ (runMain w).2 = w.cursor) ∧
    (∀ vs, cur.series < ls.length →
      loadVolumePaths w.fs (ls.getD cur.series "") = .ok vs → vs.length ≤ cur.volume →
      loadImageAtIndex w.fs w.sharp w.cfg w.fuel cur =
        some (.error (.volumeOOB cur.volume cur.series)) ∧ (runMain w).2 = w.cursor) ∧
    (∀ vs ps, cur.series < ls.length →
      loadVolumePaths w.fs (ls.getD cur.series "") = .ok vs → cur.volume < vs.length →
      loadImagePaths w.fs (vs.getD cur.volume "") = .ok ps → ps.length ≤ cur.page →
      loadImageAtIndex w.fs w.sharp w.cfg w.fuel cur =
        some (.error (.pageOOB cur.page cur.volume ps.length)) ∧
        (runMain w).2 = w.cursor) := by
  refine ⟨fun hoob => ?_, fun vs hs hvs hoob => ?_, fun vs ps hs hvs hv hps hoob => ?_⟩
  · have h := loadImageAtIndex_series_oob_eq w.fs w.sharp w.cfg w.fuel cur ls hls hoob
    exact ⟨h, runMain_cursor_unchanged_of_load_error w cur hcur _ h⟩
  · have h := loadImageAtIndex_volume_oob_eq w.fs w.sharp w.cfg w.fuel cur ls vs
      hls hs hvs hoob
    exact ⟨h, runMain_cursor_unchanged_of_load_error w cur hcur _ h⟩
  · have h := loadImageAtIndex_page_oob_eq w.fs w.sharp w.cfg w.fuel cur ls vs ps
      hls hs hvs hv hps hoob
    exact ⟨h, runMain_cursor_unchanged_of_load_error w cur hcur _ h⟩

/-- A four-series concrete filesystem matching the spec's out-of-bounds
scenario. -/
def fsFourSeries : FS := ⟨fun p =>
  if p = "images" then some [⟨"s1", true, false⟩, ⟨"s2", true, false⟩,
    ⟨"s3", true, false⟩, ⟨"s4", true, false⟩]
  else none⟩

/-- The concrete world of the C7 witness: cursor `{99,0,0}` against a
four-series archive. -/
def worldOOB : World :=
  { loginOk := true, cursor := some ⟨99, 0, 0⟩, fs := fsFourSeries, sharp := sharpSmall
    cfg := defaultConfig, fuel := 1, postOk := true }

/-- C7 witness: index `{99,0,0}` against the four-series archive yields the
series-level out-of-bounds error and the persisted record stays `{99,0,0}`. -/
theorem loadImageAtIndex_oob_errors_witness :
    loadImageAtIndex worldOOB.fs worldOOB.sharp worldOOB.cfg worldOOB.fuel ⟨99, 0, 0⟩ =
      some (.error (.seriesOOB 99)) ∧ (runMain worldOOB).2 = some ⟨99, 0, 0⟩ :=
  (loadImageAtIndex_oob_errors worldOOB ⟨99, 0, 0⟩ rfl ["s1", "s2", "s3", "s4"] rfl).1
    (by decide)
